import Mathlib

/-
Verification of the calculator core of pigfox/rust-wasm-calc (src/lib.rs).

The development shallowly embeds the Rust source:
* `F64` is a model of IEEE-754 binary64: NaN, signed infinities, signed
  zeros, and finite values `(-1)^sign * m * 2^e` with a 53-bit mantissa.
  `roundVal` rounds an exact value `(a/b) * 2^e` to nearest, ties to even,
  with gradual underflow at `2^-1074` and overflow to infinity past the
  largest finite double, exactly as f64 arithmetic does.
* `F64.add/sub/mul/div/sqrt` are the correctly rounded f64 operations used
  by the source; `F64.beq`/`F64.lt` are IEEE comparison (`==`, `<`).
* `Calculator` carries `current_value`, `memory` and the `history` list,
  and each Rust method is a state-passing function with the same name.
* `percentage`, `compound_interest` and `factorial` are the three
  standalone utility functions of the source.
-/

deriving instance DecidableEq for Except

namespace RustCalc

/-- Floor of log2 with explicit fuel, so that the kernel can evaluate it.
`lgAux f n = Nat.log2 n` whenever `n ≤ f`. -/
def lgAux : Nat → Nat → Nat
  | 0, _ => 0
  | f+1, n => if n ≤ 1 then 0 else lgAux f (n / 2) + 1

/-- `lg n` is the floor of log2 of `n` (and `0` for `n ≤ 1`). -/
def lg (n : Nat) : Nat := lgAux n n

/-- Integer square root with explicit fuel (digit-by-digit recursion on
`n / 4`), kernel-evaluable. `isqrtAux f n` is the floor of the square root
of `n` whenever `n ≤ f`. -/
def isqrtAux : Nat → Nat → Nat
  | 0, _ => 0
  | f+1, n =>
    if n = 0 then 0
    else
      let r := 2 * isqrtAux f (n / 4)
      if (r+1)*(r+1) ≤ n then r+1 else r

/-- Floor of the square root of a natural number. -/
def isqrt (n : Nat) : Nat := isqrtAux n n

/-- Round `N / D` to the nearest integer, ties to even. -/
def rnd (N D : Nat) : Nat :=
  let q := N / D
  let r := N % D
  if 2*r < D then q
  else if D < 2*r then q + 1
  else if q % 2 = 0 then q else q + 1

/-- Decide `a / b ≥ 2^c` for naturals `a b` and an integer exponent `c`. -/
def ratGe (a b : Nat) (c : Int) : Bool :=
  if 0 ≤ c then b * 2 ^ c.toNat ≤ a else b ≤ a * 2 ^ (-c).toNat

/-- Floor of log2 of the positive rational `a / b` (for `a, b ≥ 1`). -/
def floorLg (a b : Nat) : Int :=
  let g : Int := (lg a : Int) - (lg b : Int)
  if ratGe a b g then g else g - 1

/-- IEEE-754 binary64 values: NaN, infinities, signed zeros, and finite
nonzero values `(-1)^sign * m * 2^e`. The canonical (see `F64.valid`)
finite values have `m < 2^53`, with `2^52 ≤ m` for normal numbers and
`e = -1074` for subnormal ones. -/
inductive F64
  | nan
  | inf (sign : Bool)
  | zero (sign : Bool)
  | fin (sign : Bool) (e : Int) (m : Nat)
deriving DecidableEq

namespace F64

/-- Canonical representations: exactly one `F64` per double value. -/
def valid : F64 → Prop
  | fin _ e m => 0 < m ∧ m < 2^53 ∧ -1074 ≤ e ∧ e + (lg m : Int) ≤ 1023 ∧
      (m < 2^52 → e = -1074)
  | _ => True

instance : ∀ x, Decidable (valid x)
  | nan => Decidable.isTrue trivial
  | inf _ => Decidable.isTrue trivial
  | zero _ => Decidable.isTrue trivial
  | fin _ _ _ => inferInstanceAs (Decidable (_ ∧ _))

/-- True on `±0`. -/
def isZero : F64 → Bool
  | zero _ => true
  | _ => false

/-- True on zeros and finite values (false on NaN and infinities). -/
def isFinite : F64 → Bool
  | zero _ => true
  | fin _ _ _ => true
  | _ => false

/-- Sign test: true exactly on values `< 0` (false on NaN and `±0`). -/
def isNeg : F64 → Bool
  | inf s => s
  | fin s _ _ => s
  | _ => false

/-- Negation (sign flip; IEEE `-x`). -/
def neg : F64 → F64
  | nan => nan
  | inf s => inf (!s)
  | zero s => zero (!s)
  | fin s e m => fin (!s) e m

/-- Rounding and range handling shared by every arithmetic operation:
round the magnitude `N / D` to nearest-even at the scale `2^q`, flush a
zero result to a signed zero, renormalize a carry into `2^53` and
overflow to infinity past exponent 1023. -/
def roundCore (sign : Bool) (q : Int) (N D : Nat) : F64 :=
  let m := rnd N D
  if m = 0 then zero sign
  else if m = 2^53 then
    (if (971:Int) < q + 1 then inf sign else fin sign (q+1) (2^52))
  else if (1023:Int) < q + (lg m : Int) then inf sign else fin sign q m

/-- Round the exact value `(-1)^sign * (a/b) * 2^e` (for `a, b ≥ 1`) to the
nearest binary64, ties to even: the result scale is `2^(E-52)` for floor
log2 `E`, clamped at the subnormal scale `2^-1074`. -/
def roundVal (sign : Bool) (a b : Nat) (e : Int) : F64 :=
  if a = 0 then zero sign
  else
    let q := max (floorLg a b + e - 52) (-1074)
    roundCore sign q (a * 2 ^ (e - q).toNat) (b * 2 ^ (q - e).toNat)

/-- Magnitude comparison `m1 * 2^e1 < m2 * 2^e2`. -/
def magLt (e1 : Int) (m1 : Nat) (e2 : Int) (m2 : Nat) : Bool :=
  m1 * 2 ^ (e1 - min e1 e2).toNat < m2 * 2 ^ (e2 - min e1 e2).toNat

/-- Magnitude equality `m1 * 2^e1 = m2 * 2^e2`. -/
def magEq (e1 : Int) (m1 : Nat) (e2 : Int) (m2 : Nat) : Bool :=
  m1 * 2 ^ (e1 - min e1 e2).toNat == m2 * 2 ^ (e2 - min e1 e2).toNat

/-- IEEE equality `==`: NaN is equal to nothing (itself included) and
`-0.0 == 0.0`. -/
def beq : F64 → F64 → Bool
  | nan, _ => false
  | _, nan => false
  | inf s1, inf s2 => s1 == s2
  | inf _, _ => false
  | _, inf _ => false
  | zero _, zero _ => true
  | zero _, fin _ _ m => m == 0
  | fin _ _ m, zero _ => m == 0
  | fin s1 e1 m1, fin s2 e2 m2 =>
    (m1 == 0 && m2 == 0) || (s1 == s2 && magEq e1 m1 e2 m2)

/-- IEEE strict order `<`: false whenever an operand is NaN, and
`-0.0 < 0.0` is false. -/
def lt : F64 → F64 → Bool
  | nan, _ => false
  | _, nan => false
  | inf s1, inf s2 => s1 && !s2
  | inf s1, zero _ => s1
  | inf s1, fin _ _ _ => s1
  | zero _, inf s2 => !s2
  | fin _ _ _, inf s2 => !s2
  | zero _, zero _ => false
  | zero _, fin s2 _ m2 => !s2 && m2 != 0
  | fin s1 _ m1, zero _ => s1 && m1 != 0
  | fin s1 e1 m1, fin s2 e2 m2 =>
    match s1, s2 with
    | false, false => magLt e1 m1 e2 m2
    | true, true => magLt e2 m2 e1 m1
    | true, false => m1 != 0 || m2 != 0
    | false, true => false

/-- The signed integer `(-1)^s * m * 2^k` (for a shift `k ≥ 0`). -/
def sgnScale (s : Bool) (m : Nat) (k : Int) : Int :=
  (if s then -(m : Int) else (m : Int)) * 2 ^ k.toNat

/-- IEEE addition, round to nearest, ties to even. Exact cancellation of
finite operands gives `+0`, and `(+0) + (-0) = +0`, as round-to-nearest
prescribes. -/
def add : F64 → F64 → F64
  | nan, _ => nan
  | _, nan => nan
  | inf s1, inf s2 => if s1 == s2 then inf s1 else nan
  | inf s1, _ => inf s1
  | _, inf s2 => inf s2
  | zero s1, zero s2 => if s1 == s2 then zero s1 else zero false
  | zero _, y => y
  | x, zero _ => x
  | fin s1 e1 m1, fin s2 e2 m2 =>
    let lo := min e1 e2
    let v : Int := sgnScale s1 m1 (e1 - lo) + sgnScale s2 m2 (e2 - lo)
    if v = 0 then zero false
    else roundVal (decide (v < 0)) v.natAbs 1 lo

/-- IEEE subtraction: `x - y = x + (-y)`. -/
def sub (x y : F64) : F64 := add x (neg y)

/-- IEEE multiplication, round to nearest, ties to even; `0 * ∞ = NaN`. -/
def mul : F64 → F64 → F64
  | nan, _ => nan
  | _, nan => nan
  | inf s1, inf s2 => inf (xor s1 s2)
  | inf _, zero _ => nan
  | zero _, inf _ => nan
  | inf s1, fin s2 _ _ => inf (xor s1 s2)
  | fin s1 _ _, inf s2 => inf (xor s1 s2)
  | zero s1, zero s2 => zero (xor s1 s2)
  | zero s1, fin s2 _ _ => zero (xor s1 s2)
  | fin s1 _ _, zero s2 => zero (xor s1 s2)
  | fin s1 e1 m1, fin s2 e2 m2 => roundVal (xor s1 s2) (m1 * m2) 1 (e1 + e2)

/-- IEEE division, round to nearest, ties to even; `0/0 = ∞/∞ = NaN`,
`x/0 = ±∞` for `x ≠ 0`. -/
def div : F64 → F64 → F64
  | nan, _ => nan
  | _, nan => nan
  | inf _, inf _ => nan
  | inf s1, zero s2 => inf (xor s1 s2)
  | inf s1, fin s2 _ _ => inf (xor s1 s2)
  | zero _, zero _ => nan
  | zero s1, inf s2 => zero (xor s1 s2)
  | zero s1, fin s2 _ _ => zero (xor s1 s2)
  | fin s1 _ _, inf s2 => zero (xor s1 s2)
  | fin s1 _ _, zero s2 => inf (xor s1 s2)
  | fin s1 e1 m1, fin s2 e2 m2 => roundVal (xor s1 s2) m1 m2 (e1 - e2)

/-- IEEE square root, correctly rounded (rounding a square root to 53 bits
never ties, so the midpoint test `N > i*i + i` decides it). `sqrt` of a
negative value is NaN, `sqrt (-0) = -0`, `sqrt (+∞) = +∞`. -/
def sqrt : F64 → F64
  | nan => nan
  | inf false => inf false
  | inf true => nan
  | zero s => zero s
  | fin true _ _ => nan
  | fin false e m =>
    let q := (e + (lg m : Int)).fdiv 2 - 52
    let N := m * 2 ^ (e - 2*q).toNat
    let i := isqrt N
    let mr := if i*i + i < N then i+1 else i
    if mr = 2^53 then fin false (q+1) (2^52) else fin false q mr

/-- The double `1.0` and other small-integer literals of the source. -/
def ofNat (n : Nat) : F64 := if n = 0 then zero false else roundVal false n 1 0

/-- True when the value is a (mathematical) integer: zeros and finite
values whose fraction bits below `2^0` vanish. -/
def isIntVal : F64 → Bool
  | zero _ => true
  | fin _ e m => if 0 ≤ e then true else decide (m % 2 ^ (-e).toNat = 0)
  | _ => false

/-- True when the value is an odd integer. -/
def isOddIntVal : F64 → Bool
  | fin _ e m =>
    if 0 < e then false
    else if e = 0 then decide (m % 2 = 1)
    else decide (m % 2 ^ (-e).toNat = 0) && decide ((m / 2 ^ (-e).toNat) % 2 = 1)
  | _ => false

/-- The integer a finite integral value denotes (and `0` elsewhere). -/
def toIntVal : F64 → Int
  | fin s e m =>
    let mag : Nat := if 0 ≤ e then m * 2 ^ e.toNat else m / 2 ^ (-e).toNat
    if s then -(mag : Int) else (mag : Int)
  | _ => 0

/-- Model of Rust `f64::powf`. Rust documents the precision of `powf` as
non-deterministic and platform-dependent, so its exact result on a general
argument is not specified by the source; the model fixes exactly what IEEE
754 / the Rust documentation do fix, which is all any claim relies on:
the special cases `x^(±0) = 1` (any `x`, NaN included), `1^y = 1` (any
`y`), NaN propagation otherwise, the `±0` and `±∞` base/exponent cases,
NaN for a finite negative base with a non-integer finite exponent, and
correctly rounded integer powers of finite values. A positive finite base
`≠ 1` with a non-integer finite exponent (a genuinely transcendental case
whose last bit Rust leaves unspecified, and which no claim touches) is
mapped to NaN. -/
def powf (x y : F64) : F64 :=
  if y.isZero then ofNat 1
  else if beq x (ofNat 1) then ofNat 1
  else match x, y with
  | nan, _ => nan
  | _, nan => nan
  | inf sx, y =>
    if sx then
      (if y.isNeg then (if isOddIntVal y then zero true else zero false)
       else (if isOddIntVal y then inf true else inf false))
    else (if y.isNeg then zero false else inf false)
  | zero sx, y =>
    if y.isNeg then (if isOddIntVal y then inf sx else inf false)
    else (if isOddIntVal y then zero sx else zero false)
  | _, zero _ => ofNat 1
  | fin _ ex mx, inf sy =>
    if magLt ex mx (-52) (2^52) then (if sy then inf false else zero false)
    else if magLt (-52) (2^52) ex mx then (if sy then zero false else inf false)
    else ofNat 1
  | fin sx ex mx, fin _ ey my =>
    if isIntVal (fin false ey my) then
      let k := toIntVal (fin false ey my)
      let sgn := sx && isOddIntVal (fin false ey my)
      if 0 ≤ k then roundVal sgn (mx ^ k.toNat) 1 (ex * k)
      else roundVal sgn 1 (mx ^ (-k).toNat) (ex * k)
    else nan

end F64

/-- The error kinds of the source (`CalcError` in src/lib.rs). -/
inductive CalcError
  | DivisionByZero
  | NegativeSqrt
  | Overflow
deriving DecidableEq

/-- The operation tag recorded in history entries. -/
inductive Operation
  | Add
  | Subtract
  | Multiply
  | Divide
deriving DecidableEq

/-- One history record: `{operand1, operand2, operation, result}`. -/
structure CalculationHistory where
  operand1 : F64
  operand2 : F64
  operation : Operation
  result : F64
deriving DecidableEq

/-- The calculator state: current value, memory register, history list. -/
structure Calculator where
  current_value : F64
  memory : F64
  history : List CalculationHistory
deriving DecidableEq

namespace Calculator

/-- `Calculator::new()` (and `Default::default()`): zeros and an empty
history. -/
def new : Calculator := ⟨F64.zero false, F64.zero false, []⟩

/-- `Calculator::add_to_history`: push one record at the end. -/
def add_to_history (c : Calculator) (operand1 operand2 : F64) (operation : Operation)
    (result : F64) : Calculator :=
  { c with history := c.history ++ [⟨operand1, operand2, operation, result⟩] }

/-- `Calculator::add`. -/
def add (c : Calculator) (value : F64) : F64 × Calculator :=
  let result := F64.add c.current_value value
  let c1 := c.add_to_history c.current_value value Operation.Add result
  (result, { c1 with current_value := result })

/-- `Calculator::subtract`. -/
def subtract (c : Calculator) (value : F64) : F64 × Calculator :=
  let result := F64.sub c.current_value value
  let c1 := c.add_to_history c.current_value value Operation.Subtract result
  (result, { c1 with current_value := result })

/-- `Calculator::multiply`. -/
def multiply (c : Calculator) (value : F64) : F64 × Calculator :=
  let result := F64.mul c.current_value value
  let c1 := c.add_to_history c.current_value value Operation.Multiply result
  (result, { c1 with current_value := result })

/-- `Calculator::divide`: fails on a `== 0.0` divisor, leaving the state
untouched; otherwise records the division and updates the value. -/
def divide (c : Calculator) (value : F64) : Except CalcError F64 × Calculator :=
  if F64.beq value (F64.zero false) then (Except.error CalcError.DivisionByZero, c)
  else
    let result := F64.div c.current_value value
    let c1 := c.add_to_history c.current_value value Operation.Divide result
    (Except.ok result, { c1 with current_value := result })

/-- `Calculator::sqrt`: fails when `current_value < 0.0`, leaving the
state untouched; otherwise replaces the value by its square root (no
history entry). -/
def sqrt (c : Calculator) : Except CalcError F64 × Calculator :=
  if F64.lt c.current_value (F64.zero false) then (Except.error CalcError.NegativeSqrt, c)
  else
    let r := F64.sqrt c.current_value
    (Except.ok r, { c with current_value := r })

/-- `Calculator::power` (no history entry). -/
def power (c : Calculator) (exponent : F64) : F64 × Calculator :=
  let r := F64.powf c.current_value exponent
  (r, { c with current_value := r })

/-- `Calculator::get_value`. -/
def get_value (c : Calculator) : F64 := c.current_value

/-- `Calculator::set_value`. -/
def set_value (c : Calculator) (value : F64) : Calculator :=
  { c with current_value := value }

/-- `Calculator::clear`: only `current_value` is reset. -/
def clear (c : Calculator) : Calculator :=
  { c with current_value := F64.zero false }

/-- `Calculator::memory_store`. -/
def memory_store (c : Calculator) : Calculator :=
  { c with memory := c.current_value }

/-- `Calculator::memory_recall`: copies memory into the current value and
returns it. -/
def memory_recall (c : Calculator) : F64 × Calculator :=
  (c.memory, { c with current_value := c.memory })

/-- `Calculator::memory_clear`. -/
def memory_clear (c : Calculator) : Calculator :=
  { c with memory := F64.zero false }

/-- `Calculator::memory_add`. -/
def memory_add (c : Calculator) : Calculator :=
  { c with memory := F64.add c.memory c.current_value }

/-- `Calculator::get_memory`. -/
def get_memory (c : Calculator) : F64 := c.memory

/-- `Calculator::get_history` (the snapshot the source serializes). -/
def get_history (c : Calculator) : List CalculationHistory := c.history

/-- `Calculator::clear_history`. -/
def clear_history (c : Calculator) : Calculator :=
  { c with history := [] }

/-- `Calculator::history_count`. -/
def history_count (c : Calculator) : Nat := c.history.length

end Calculator

/-- `percentage(value, percent) = value * (percent / 100.0)` — note the
source parenthesization. -/
def percentage (value percent : F64) : F64 :=
  F64.mul value (F64.div percent (F64.ofNat 100))

/-- `compound_interest(principal, rate, years, compounds_per_year) =
principal * (1.0 + rate / (100.0 * compounds_per_year)).powf(compounds_per_year * years)`. -/
def compound_interest (principal rate years compounds_per_year : F64) : F64 :=
  F64.mul principal
    (F64.powf (F64.add (F64.ofNat 1) (F64.div rate (F64.mul (F64.ofNat 100) compounds_per_year)))
      (F64.mul compounds_per_year years))

/-- `factorial(n)`: `Err(Overflow)` for `n > 20`, else the iterative
product over `i = 2..=n`, each step guarded by `checked_mul` against u64
overflow (`2^64`). -/
def factorial (n : Nat) : Except CalcError Nat :=
  if n > 20 then Except.error CalcError.Overflow
  else
    ((List.range (n+1)).drop 2).foldlM
      (fun acc i => if acc * i < 2^64 then Except.ok (acc * i) else Except.error CalcError.Overflow)
      1

/-- One call of the public mutating interface, for reasoning about
arbitrary call sequences against a calculator. -/
inductive Op
  | add (v : F64)
  | subtract (v : F64)
  | multiply (v : F64)
  | divide (v : F64)
  | sqrt
  | power (e : F64)
  | clear
  | set_value (v : F64)
  | memory_store
  | memory_recall
  | memory_clear
  | memory_add
  | clear_history
deriving DecidableEq

/-- Run one interface call against the state (a failing `divide`/`sqrt`
leaves the state as the source does: unchanged). -/
def Calculator.applyOp (c : Calculator) : Op → Calculator
  | Op.add v => (c.add v).2
  | Op.subtract v => (c.subtract v).2
  | Op.multiply v => (c.multiply v).2
  | Op.divide v => (c.divide v).2
  | Op.sqrt => (c.sqrt).2
  | Op.power e => (c.power e).2
  | Op.clear => c.clear
  | Op.set_value v => c.set_value v
  | Op.memory_store => c.memory_store
  | Op.memory_recall => (c.memory_recall).2
  | Op.memory_clear => c.memory_clear
  | Op.memory_add => c.memory_add
  | Op.clear_history => c.clear_history

/-- Specification-side counter: the number of successful add, subtract,
multiply or divide calls since the most recent `clear_history` — a fold
step that adds one for each of those calls (a divide only when its
divisor is not `== 0.0`) and resets on `clear_history`. -/
def succCount (n : Nat) : Op → Nat
  | Op.add _ => n + 1
  | Op.subtract _ => n + 1
  | Op.multiply _ => n + 1
  | Op.divide v => if F64.beq v (F64.zero false) then n else n + 1
  | Op.clear_history => 0
  | _ => n

/-- The claim's reading of the percentage formula, `value * percent / 100`,
evaluated left to right in IEEE-754 arithmetic (to be compared with the
source's `value * (percent / 100.0)`). -/
def percentage_claim_formula (value percent : F64) : F64 :=
  F64.div (F64.mul value percent) (F64.ofNat 100)

end RustCalc

set_option maxRecDepth 16384

namespace RustCalc

/-! ## Supporting lemmas about the binary64 model -/

theorem lgAux_spec : ∀ f n : Nat, 1 ≤ n → n ≤ f →
    2 ^ lgAux f n ≤ n ∧ n < 2 ^ (lgAux f n + 1) := by
  intro f
  induction f with
  | zero => intro n h1 h2; omega
  | succ f ih =>
    intro n h1 h2
    by_cases h : n ≤ 1
    · have hn : n = 1 := by omega
      simp [lgAux, h, hn]
    · simp only [lgAux, h, if_false]
      have hrec := ih (n / 2) (by omega) (by omega)
      obtain ⟨hl, hr⟩ := hrec
      rw [pow_succ, pow_succ]
      rw [pow_succ] at hr
      omega

theorem lg_spec (n : Nat) (h : 1 ≤ n) : 2 ^ lg n ≤ n ∧ n < 2 ^ (lg n + 1) :=
  lgAux_spec n n h le_rfl

theorem lg_eq_of (n k : Nat) (h1 : 2^k ≤ n) (h2 : n < 2^(k+1)) : lg n = k := by
  have h0 : 1 ≤ n := le_trans Nat.one_le_two_pow h1
  obtain ⟨hl, hr⟩ := lg_spec n h0
  rcases Nat.lt_or_ge (lg n) k with hlt | hge
  · have hle : 2^(lg n + 1) ≤ 2^k := Nat.pow_le_pow_right (by norm_num) (by omega)
    omega
  · rcases Nat.lt_or_ge k (lg n) with hgt | hge2
    · have hle : 2^(k+1) ≤ 2^(lg n) := Nat.pow_le_pow_right (by norm_num) (by omega)
      omega
    · omega

/-- Rounding an exact multiple is exact. -/
theorem rnd_exact (m D : Nat) (hD : 0 < D) : rnd (m * D) D = m := by
  simp only [rnd, Nat.mul_div_cancel m hD, Nat.mul_mod_left]
  simp [hD]

/-- Rounding a value that is already representable returns exactly its
canonical representation: the key fact behind `x * 1.0 = x`. -/
theorem roundVal_fin_exact (s : Bool) (e : Int) (m : Nat)
    (h1 : 0 < m) (h2 : m < 2^53) (h3 : -1074 ≤ e) (h4 : e + (lg m : Int) ≤ 1023)
    (h5 : m < 2^52 → e = -1074) :
    F64.roundVal s (m * 2^52) 1 (e - 52) = F64.fin s e m := by
  have hm1 : 1 ≤ m := h1
  obtain ⟨hml, hmr⟩ := lg_spec m hm1
  have hlg52 : lg m ≤ 52 := by
    by_contra hc
    have : 2^53 ≤ 2^(lg m) := Nat.pow_le_pow_right (by norm_num) (by omega)
    omega
  have ha : lg (m * 2^52) = lg m + 52 := by
    apply lg_eq_of
    · rw [pow_add]
      exact Nat.mul_le_mul_right _ hml
    · have : m * 2^52 < 2^(lg m + 1) * 2^52 := by
        exact (Nat.mul_lt_mul_right (by positivity)).mpr hmr
      calc m * 2^52 < 2^(lg m + 1) * 2^52 := this
        _ = 2^(lg m + 52 + 1) := by ring
  have hane : ¬ (m * 2^52 = 0) := by positivity
  rw [F64.roundVal, if_neg hane]
  have hfl : floorLg (m * 2^52) 1 = ((lg m : Int) + 52 : Int) := by
    rw [floorLg]
    have hlg1 : lg 1 = 0 := rfl
    rw [ha, hlg1]
    have hge : ratGe (m * 2^52) 1 ((lg m : Int) + 52 - 0) = true := by
      rw [ratGe, if_pos (by omega : (0:Int) ≤ (lg m : Int) + 52 - 0)]
      apply decide_eq_true
      have ht : ((lg m : Int) + 52 - 0).toNat = lg m + 52 := by omega
      rw [ht, one_mul, pow_add]
      exact Nat.mul_le_mul_right _ hml
    push_cast
    push_cast at hge
    rw [hge]
    simp
  rw [hfl]
  have hq : max ((lg m : Int) + 52 + (e - 52) - 52) (-1074) = e := by
    rcases Nat.lt_or_ge m (2^52) with hsub | hnorm
    · have he : e = -1074 := h5 hsub
      have hlg51 : lg m ≤ 51 := by
        by_contra hc
        have : 2^52 ≤ 2^(lg m) := Nat.pow_le_pow_right (by norm_num) (by omega)
        omega
      rw [he]
      have : (lg m : Int) + 52 + (-1074 - 52) - 52 ≤ -1074 := by
        have : (lg m : Int) ≤ 51 := by exact_mod_cast hlg51
        omega
      omega
    · have hlg : lg m = 52 := lg_eq_of m 52 hnorm h2
      rw [hlg]
      have h52 : ((52:Nat):Int) + 52 + (e - 52) - 52 = e := by push_cast; ring
      rw [h52]
      omega
  rw [hq]
  have hsh1 : (e - 52 - e).toNat = 0 := by omega
  have hsh2 : (e - (e - 52)).toNat = 52 := by omega
  show F64.roundCore s e (m * 2 ^ 52 * 2 ^ (e - 52 - e).toNat) (1 * 2 ^ (e - (e - 52)).toNat)
      = F64.fin s e m
  rw [hsh1, hsh2, pow_zero, mul_one, one_mul]
  simp only [F64.roundCore, rnd_exact m (2^52) (by positivity)]
  rw [if_neg (Nat.pos_iff_ne_zero.mp h1), if_neg (Nat.ne_of_lt h2), if_neg (not_lt.mpr h4)]

theorem F64_ofNat_one_eq : F64.ofNat 1 = F64.fin false (-52) (2^52) := by decide

theorem F64_ofNat_hundred_eq : F64.ofNat 100 = F64.fin false (-46) 7036874417766400 := by decide

/-- Multiplication by `1.0` is the identity on canonical doubles. -/
theorem mul_ofNat_one (p : F64) (h : p.valid) : F64.mul p (F64.ofNat 1) = p := by
  rw [F64_ofNat_one_eq]
  cases p with
  | nan => rfl
  | inf s => show F64.inf (xor s false) = F64.inf s; rw [Bool.xor_false]
  | zero s => show F64.zero (xor s false) = F64.zero s; rw [Bool.xor_false]
  | fin s e m =>
    obtain ⟨h1, h2, h3, h4, h5⟩ := h
    show F64.roundVal (xor s false) (m * 2^52) 1 (e + -52) = F64.fin s e m
    rw [Bool.xor_false, show e + -52 = e - 52 by ring]
    exact roundVal_fin_exact s e m h1 h2 h3 h4 h5

theorem roundVal_ne_nan (s : Bool) (a b : Nat) (e : Int) : F64.roundVal s a b e ≠ F64.nan := by
  rw [F64.roundVal, F64.roundCore]
  split
  · simp
  · split
    · simp
    · split
      · split <;> simp
      · split <;> simp

theorem powf_zero_exponent (x : F64) (s : Bool) : F64.powf x (F64.zero s) = F64.ofNat 1 := rfl

theorem powf_one_base (y : F64) : F64.powf (F64.ofNat 1) y = F64.ofNat 1 := by
  rw [F64.powf.eq_def]
  split
  · rfl
  · rw [if_pos (by decide)]

/-! ## Lemmas about call sequences (history bookkeeping) -/

theorem applyOp_history_length (c : Calculator) (op : Op) :
    (c.applyOp op).history.length = succCount c.history.length op := by
  cases op with
  | divide v =>
    cases h : F64.beq v (F64.zero false) <;>
      simp [Calculator.applyOp, succCount, Calculator.divide, h, Calculator.add_to_history]
  | sqrt =>
    show (c.sqrt).2.history.length = succCount c.history.length Op.sqrt
    rw [Calculator.sqrt]
    split <;> rfl
  | _ =>
    simp [Calculator.applyOp, succCount, Calculator.add, Calculator.subtract,
      Calculator.multiply, Calculator.add_to_history, Calculator.power, Calculator.clear,
      Calculator.set_value, Calculator.memory_store, Calculator.memory_recall,
      Calculator.memory_clear, Calculator.memory_add, Calculator.clear_history]

theorem foldl_applyOp_history (ops : List Op) :
    ∀ c : Calculator,
      (List.foldl Calculator.applyOp c ops).history.length
        = List.foldl succCount c.history.length ops := by
  induction ops with
  | nil => intro c; rfl
  | cons op rest ih =>
    intro c
    simp only [List.foldl]
    rw [ih, applyOp_history_length]

/-! ## The claims -/

/-- C1: for every calculator state and float64 `v`, `divide v` fails with
`DivisionByZero` iff `v == 0.0` (IEEE equality), failure leaves the whole
state exactly as it was, and for `v != 0.0` it succeeds, returning (and
storing) the old `current_value` divided by `v` — non-finite quotients
included, since the success branch is unconditional. -/
theorem divide_by_zero_spec (c : Calculator) (v : F64) :
    ((c.divide v).1 = Except.error CalcError.DivisionByZero ↔ F64.beq v (F64.zero false) = true)
    ∧ (F64.beq v (F64.zero false) = true → (c.divide v).2 = c)
    ∧ (F64.beq v (F64.zero false) = false →
        (c.divide v).1 = Except.ok (F64.div c.current_value v)
        ∧ (c.divide v).2.current_value = F64.div c.current_value v
        ∧ (c.divide v).2.memory = c.memory) := by
  cases h : F64.beq v (F64.zero false) <;>
    simp [Calculator.divide, h, Calculator.add_to_history]

/-- C1 witness: dividing 10 by 0 leaves the state untouched; dividing 10
by 2 returns 5. -/
theorem divide_by_zero_witness :
    ((Calculator.new.set_value (F64.ofNat 10)).divide (F64.zero false)).2
        = Calculator.new.set_value (F64.ofNat 10)
    ∧ ((Calculator.new.set_value (F64.ofNat 10)).divide (F64.ofNat 2)).1
        = Except.ok (F64.ofNat 5) :=
  ⟨(divide_by_zero_spec _ _).2.1 rfl,
   (((divide_by_zero_spec (Calculator.new.set_value (F64.ofNat 10)) (F64.ofNat 2)).2.2
      (by decide)).1).trans (by decide)⟩

/-- C2: `sqrt()` fails with `NegativeSqrt` iff `current_value < 0` (IEEE
`<`, so NaN and `-0` do not fail), failure leaves the whole state
unchanged, and on success the current value becomes its IEEE square root,
is returned, and history and memory are untouched. -/
theorem sqrt_negative_spec (c : Calculator) :
    ((c.sqrt).1 = Except.error CalcError.NegativeSqrt
        ↔ F64.lt c.current_value (F64.zero false) = true)
    ∧ (F64.lt c.current_value (F64.zero false) = true → (c.sqrt).2 = c)
    ∧ (F64.lt c.current_value (F64.zero false) = false →
        (c.sqrt).1 = Except.ok (F64.sqrt c.current_value)
        ∧ (c.sqrt).2.current_value = F64.sqrt c.current_value
        ∧ (c.sqrt).2.memory = c.memory
        ∧ (c.sqrt).2.history = c.history) := by
  cases h : F64.lt c.current_value (F64.zero false) <;> simp [Calculator.sqrt, h]

/-- C2 witness: `sqrt` of `-4` fails and changes nothing; `sqrt` of `16`
returns `4`. -/
theorem sqrt_negative_witness :
    ((Calculator.new.set_value (F64.neg (F64.ofNat 4))).sqrt).2
        = Calculator.new.set_value (F64.neg (F64.ofNat 4))
    ∧ ((Calculator.new.set_value (F64.ofNat 16)).sqrt).1 = Except.ok (F64.ofNat 4) :=
  ⟨(sqrt_negative_spec _).2.1 rfl,
   (((sqrt_negative_spec (Calculator.new.set_value (F64.ofNat 16))).2.2 rfl).1).trans (by decide)⟩

/-- C3: over every call sequence from a fresh calculator, `history_count`
equals the number of successful add/subtract/multiply/divide calls since
the most recent `clear_history` (the `succCount` fold), and sqrt, power,
clear, set_value, every memory operation, and a failed divide leave the
history untouched. -/
theorem history_count_spec :
    (∀ ops : List Op,
      (List.foldl Calculator.applyOp Calculator.new ops).history_count
        = List.foldl succCount 0 ops)
    ∧ (∀ c : Calculator, (c.sqrt).2.history = c.history)
    ∧ (∀ c : Calculator, ∀ v, (c.power v).2.history = c.history)
    ∧ (∀ c : Calculator, (c.clear).history = c.history)
    ∧ (∀ c : Calculator, ∀ v, (c.set_value v).history = c.history)
    ∧ (∀ c : Calculator, (c.memory_store).history = c.history
        ∧ (c.memory_recall).2.history = c.history
        ∧ (c.memory_clear).history = c.history
        ∧ (c.memory_add).history = c.history)
    ∧ (∀ c : Calculator, ∀ v, F64.beq v (F64.zero false) = true →
        (c.divide v).2.history = c.history) := by
  refine ⟨fun ops => foldl_applyOp_history ops Calculator.new,
    ?_, fun c v => rfl, fun c => rfl, fun c v => rfl,
    fun c => ⟨rfl, rfl, rfl, rfl⟩, ?_⟩
  · intro c
    rw [Calculator.sqrt]
    split <;> rfl
  · intro c v h
    simp [Calculator.divide, h]

/-- C3 witness: the spec scenario `set 10, +5, *2, -10, /4` has history
count 4, and a divide by zero appends nothing. -/
theorem history_count_witness :
    (List.foldl Calculator.applyOp Calculator.new
        [Op.set_value (F64.ofNat 10), Op.add (F64.ofNat 5), Op.multiply (F64.ofNat 2),
         Op.subtract (F64.ofNat 10), Op.divide (F64.ofNat 4)]).history_count = 4
    ∧ (Calculator.new.divide (F64.zero false)).2.history = Calculator.new.history :=
  ⟨(history_count_spec.1 _).trans (by decide),
   history_count_spec.2.2.2.2.2.2 Calculator.new (F64.zero false) rfl⟩

/-- C4: `factorial n` is `Ok (n!)` for every `n ≤ 20`, with the claimed
values at 0, 1, 5, 10 and 20, and is `Err(Overflow)` for every `n > 20`
(21 and 100 in particular). -/
theorem factorial_values_spec :
    (∀ n, n ≤ 20 → factorial n = Except.ok (Nat.factorial n))
    ∧ factorial 0 = Except.ok 1
    ∧ factorial 1 = Except.ok 1
    ∧ factorial 5 = Except.ok 120
    ∧ factorial 10 = Except.ok 3628800
    ∧ factorial 20 = Except.ok 2432902008176640000
    ∧ factorial 21 = Except.error CalcError.Overflow
    ∧ factorial 100 = Except.error CalcError.Overflow
    ∧ (∀ n, 20 < n → factorial n = Except.error CalcError.Overflow) := by
  refine ⟨@of_decide_eq_true _ (Nat.decidableBallLE 20 _) (by rfl),
    rfl, rfl, rfl, rfl, rfl, rfl, rfl, ?_⟩
  intro n h
  simp [factorial, h]

/-- C5: for every `n ≤ 20` the running u64 product (the prefix factorials)
stays below `2^64`, so the defensive `checked_mul` branch never fires and
`factorial n` returns `Ok (n!)`. -/
theorem factorial_no_overflow_spec (n : Nat) (h : n ≤ 20) :
    factorial n = Except.ok (Nat.factorial n) ∧ ∀ k, k ≤ n → Nat.factorial k < 2^64 := by
  revert n
  exact @of_decide_eq_true _ (Nat.decidableBallLE 20 _) (by rfl)

/-- C5 witness: the bound holds at the ceiling `n = 20` itself. -/
theorem factorial_no_overflow_witness :
    factorial 20 = Except.ok (Nat.factorial 20) ∧ ∀ k, k ≤ 20 → Nat.factorial k < 2^64 :=
  factorial_no_overflow_spec 20 (by decide)

/-- C6 counterexample: at `value = 3`, `percent = 10` the source's
`value * (percent / 100.0)` and the claim's left-associated
`(value * percent) / 100` round differently (they differ in the last
bit: 0.30000000000000004 versus 0.3), so `percentage` does not equal
`value * percent / 100` read as an IEEE-754 expression. -/
theorem percentage_assoc_counterexample :
    percentage (F64.ofNat 3) (F64.ofNat 10) = F64.fin false (-54) 5404319552844596
    ∧ percentage_claim_formula (F64.ofNat 3) (F64.ofNat 10) = F64.fin false (-54) 5404319552844595
    ∧ F64.beq (percentage (F64.ofNat 3) (F64.ofNat 10))
        (percentage_claim_formula (F64.ofNat 3) (F64.ofNat 10)) = false := by
  refine ⟨by decide, by decide, by decide⟩

/-- C6 (amended): `percentage value percent` equals
`value * (percent / 100)` under IEEE-754 arithmetic (the source's
parenthesization), it never fails, and `percentage 200 10 = 20`,
`percentage (-100) 10 = -10` hold exactly. -/
theorem percentage_formula_spec :
    (∀ value percent : F64,
      percentage value percent = F64.mul value (F64.div percent (F64.ofNat 100)))
    ∧ percentage (F64.ofNat 200) (F64.ofNat 10) = F64.ofNat 20
    ∧ percentage (F64.neg (F64.ofNat 100)) (F64.ofNat 10) = F64.neg (F64.ofNat 10) :=
  ⟨fun _ _ => rfl, by decide, by decide⟩

/-- C7: `clear()` sets `current_value` to `0` and changes nothing else —
memory and history are exactly as before — and in the spec scenario
`set 42, add 10, memory_store, clear` the memory still reads `52`. -/
theorem clear_frame_spec (c : Calculator) :
    (c.clear).current_value = F64.zero false
    ∧ (c.clear).memory = c.memory
    ∧ (c.clear).history = c.history
    ∧ ((((Calculator.new.set_value (F64.ofNat 42)).add (F64.ofNat 10)).2.memory_store).clear).current_value
        = F64.zero false
    ∧ ((((Calculator.new.set_value (F64.ofNat 42)).add (F64.ofNat 10)).2.memory_store).clear).memory
        = F64.ofNat 52 :=
  ⟨rfl, rfl, rfl, rfl, by decide⟩

/-- C8: every successful add/subtract/multiply/divide appends exactly one
history entry `(old current_value, v, tag, result)` at the end of the
unchanged previous history, where the recorded result is the returned
value and the new `current_value`. -/
theorem binop_history_append_spec (c : Calculator) (v : F64) :
    ((c.add v).2.history
        = c.history ++ [⟨c.current_value, v, Operation.Add, F64.add c.current_value v⟩]
      ∧ (c.add v).1 = F64.add c.current_value v
      ∧ (c.add v).2.current_value = (c.add v).1)
    ∧ ((c.subtract v).2.history
        = c.history ++ [⟨c.current_value, v, Operation.Subtract, F64.sub c.current_value v⟩]
      ∧ (c.subtract v).1 = F64.sub c.current_value v
      ∧ (c.subtract v).2.current_value = (c.subtract v).1)
    ∧ ((c.multiply v).2.history
        = c.history ++ [⟨c.current_value, v, Operation.Multiply, F64.mul c.current_value v⟩]
      ∧ (c.multiply v).1 = F64.mul c.current_value v
      ∧ (c.multiply v).2.current_value = (c.multiply v).1)
    ∧ (F64.beq v (F64.zero false) = false →
        (c.divide v).2.history
          = c.history ++ [⟨c.current_value, v, Operation.Divide, F64.div c.current_value v⟩]
        ∧ (c.divide v).1 = Except.ok (F64.div c.current_value v)
        ∧ (c.divide v).2.current_value = F64.div c.current_value v) := by
  refine ⟨⟨rfl, rfl, rfl⟩, ⟨rfl, rfl, rfl⟩, ⟨rfl, rfl, rfl⟩, ?_⟩
  intro h
  simp [Calculator.divide, h, Calculator.add_to_history]

/-- C8 witness: dividing 10 by 2 on a fresh calculator records exactly
the entry `(10, 2, Divide, 5)`. -/
theorem binop_history_append_witness :
    ((Calculator.new.set_value (F64.ofNat 10)).divide (F64.ofNat 2)).2.history
      = [⟨F64.ofNat 10, F64.ofNat 2, Operation.Divide, F64.ofNat 5⟩] :=
  ((((binop_history_append_spec (Calculator.new.set_value (F64.ofNat 10))
      (F64.ofNat 2)).2.2.2) (by decide)).1).trans (by decide)

/-- C9 counterexample: with zero principal, rate `-300`, years `0.5` and
one compounding per year, the growth factor is `(-2)^0.5 = NaN`, and
`0 * NaN = NaN`, so `compound_interest 0 (-300) 0.5 1` is NaN, not `0` —
the degenerate zero-principal identity fails for some arguments. -/
theorem compound_interest_zero_principal_counterexample :
    compound_interest (F64.zero false) (F64.neg (F64.ofNat 300))
        (F64.div (F64.ofNat 1) (F64.ofNat 2)) (F64.ofNat 1) = F64.nan
    ∧ F64.beq
        (compound_interest (F64.zero false) (F64.neg (F64.ofNat 300))
          (F64.div (F64.ofNat 1) (F64.ofNat 2)) (F64.ofNat 1))
        (F64.zero false) = false := by
  refine ⟨by decide, by decide⟩

/-- C9 (amended): `compound_interest` is exactly the formula
`principal * (1 + rate/(100*compounds)) ^ (compounds*years)`; a zero rate
yields the principal for finite years and compounds (provided
`100 * compounds` does not round to zero, or compounds is itself zero); a
zero years yields the principal for finite compounds; and a zero
principal yields `0` whenever the growth factor is finite (the
counterexample shows it is NaN when the factor is NaN or infinite). -/
theorem compound_interest_amended_spec (p r y c : F64) :
    (compound_interest p r y c
      = F64.mul p
          (F64.powf (F64.add (F64.ofNat 1) (F64.div r (F64.mul (F64.ofNat 100) c)))
            (F64.mul c y)))
    ∧ (p.valid → r.isZero = true → y.isFinite = true → c.isFinite = true →
        ((F64.mul (F64.ofNat 100) c).isZero = false ∨ c.isZero = true) →
        compound_interest p r y c = p)
    ∧ (p.valid → y.isZero = true → c.isFinite = true →
        compound_interest p r y c = p)
    ∧ (p.isZero = true →
        (F64.powf (F64.add (F64.ofNat 1) (F64.div r (F64.mul (F64.ofNat 100) c)))
          (F64.mul c y)).isFinite = true →
        F64.beq (compound_interest p r y c) (F64.zero false) = true) := by
  refine ⟨rfl, ?_, ?_, ?_⟩
  · intro hp hr hy hc hX
    cases r with
    | nan => simp [F64.isZero] at hr
    | inf sr => simp [F64.isZero] at hr
    | fin sr er mr => simp [F64.isZero] at hr
    | zero sr =>
      cases c with
      | nan => simp [F64.isFinite] at hc
      | inf sc => simp [F64.isFinite] at hc
      | zero sc =>
        cases y with
        | nan => simp [F64.isFinite] at hy
        | inf sy => simp [F64.isFinite] at hy
        | zero sy =>
          show F64.mul p _ = p
          rw [F64_ofNat_hundred_eq]
          exact mul_ofNat_one p hp
        | fin sy ey my =>
          show F64.mul p _ = p
          rw [F64_ofNat_hundred_eq]
          exact mul_ofNat_one p hp
      | fin sc ec mc =>
        have hXz : (F64.mul (F64.ofNat 100) (F64.fin sc ec mc)).isZero = false := by
          rcases hX with hX | hX
          · exact hX
          · simp [F64.isZero] at hX
        rcases hXeq : F64.mul (F64.ofNat 100) (F64.fin sc ec mc) with _ | sX | sX | ⟨sX, eX, mX⟩
        · exfalso
          rw [F64_ofNat_hundred_eq] at hXeq
          exact roundVal_ne_nan _ _ _ _ hXeq
        · show F64.mul p
              (F64.powf (F64.add (F64.ofNat 1)
                (F64.div (F64.zero sr) (F64.mul (F64.ofNat 100) (F64.fin sc ec mc))))
                (F64.mul (F64.fin sc ec mc) y)) = p
          rw [hXeq]
          show F64.mul p
              (F64.powf (F64.add (F64.ofNat 1) (F64.zero (xor sr sX)))
                (F64.mul (F64.fin sc ec mc) y)) = p
          rw [F64_ofNat_one_eq]
          show F64.mul p
              (F64.powf (F64.fin false (-52) (2^52)) (F64.mul (F64.fin sc ec mc) y)) = p
          rw [← F64_ofNat_one_eq, powf_one_base]
          exact mul_ofNat_one p hp
        · rw [hXeq] at hXz
          simp [F64.isZero] at hXz
        · show F64.mul p
              (F64.powf (F64.add (F64.ofNat 1)
                (F64.div (F64.zero sr) (F64.mul (F64.ofNat 100) (F64.fin sc ec mc))))
                (F64.mul (F64.fin sc ec mc) y)) = p
          rw [hXeq]
          show F64.mul p
              (F64.powf (F64.add (F64.ofNat 1) (F64.zero (xor sr sX)))
                (F64.mul (F64.fin sc ec mc) y)) = p
          rw [F64_ofNat_one_eq]
          show F64.mul p
              (F64.powf (F64.fin false (-52) (2^52)) (F64.mul (F64.fin sc ec mc) y)) = p
          rw [← F64_ofNat_one_eq, powf_one_base]
          exact mul_ofNat_one p hp
  · intro hp hy hc
    cases y with
    | nan => simp [F64.isZero] at hy
    | inf sy => simp [F64.isZero] at hy
    | fin sy ey my => simp [F64.isZero] at hy
    | zero sy =>
      cases c with
      | nan => simp [F64.isFinite] at hc
      | inf sc => simp [F64.isFinite] at hc
      | zero sc =>
        show F64.mul p
            (F64.powf _ (F64.mul (F64.zero sc) (F64.zero sy))) = p
        rw [show F64.mul (F64.zero sc) (F64.zero sy) = F64.zero (xor sc sy) from rfl,
          powf_zero_exponent]
        exact mul_ofNat_one p hp
      | fin sc ec mc =>
        show F64.mul p
            (F64.powf _ (F64.mul (F64.fin sc ec mc) (F64.zero sy))) = p
        rw [show F64.mul (F64.fin sc ec mc) (F64.zero sy) = F64.zero (xor sc sy) from rfl,
          powf_zero_exponent]
        exact mul_ofNat_one p hp
  · intro hp hfin
    cases p with
    | nan => simp [F64.isZero] at hp
    | inf sp => simp [F64.isZero] at hp
    | fin sp ep mp => simp [F64.isZero] at hp
    | zero sp =>
      rcases hg : F64.powf (F64.add (F64.ofNat 1) (F64.div r (F64.mul (F64.ofNat 100) c)))
          (F64.mul c y) with _ | sg | sg | ⟨sg, eg, mg⟩
      · rw [hg] at hfin; simp [F64.isFinite] at hfin
      · rw [hg] at hfin; simp [F64.isFinite] at hfin
      · show F64.beq (F64.mul (F64.zero sp) _) (F64.zero false) = true
        rw [hg]
        rfl
      · show F64.beq (F64.mul (F64.zero sp) _) (F64.zero false) = true
        rw [hg]
        rfl

/-- C9 witness: `compound_interest 1000 0 10 12 = 1000` exactly, through
the amended zero-rate identity. -/
theorem compound_interest_amended_witness :
    compound_interest (F64.ofNat 1000) (F64.zero false) (F64.ofNat 10) (F64.ofNat 12)
      = F64.ofNat 1000 :=
  (compound_interest_amended_spec (F64.ofNat 1000) (F64.zero false) (F64.ofNat 10)
      (F64.ofNat 12)).2.1
    (by decide) rfl (by decide) (by decide) (Or.inl (by decide))

/-- C10: dividing by `-0.0` fails with `DivisionByZero` exactly like
`+0.0` (the guard is IEEE equality, under which `-0.0 == 0.0`), leaving
the state unchanged, while a NaN divisor is not `== 0.0`, so
`divide NaN` succeeds and silently sets `current_value` to NaN. -/
theorem divide_signed_zero_nan_spec (c : Calculator) :
    c.divide (F64.zero true) = (Except.error CalcError.DivisionByZero, c)
    ∧ c.divide (F64.zero false) = (Except.error CalcError.DivisionByZero, c)
    ∧ (c.divide F64.nan).1 = Except.ok F64.nan
    ∧ (c.divide F64.nan).2.current_value = F64.nan := by
  refine ⟨rfl, rfl, ?_, ?_⟩ <;>
    cases hcv : c.current_value <;>
      simp [Calculator.divide, F64.div, F64.beq, hcv, Calculator.add_to_history]

end RustCalc
